import Mathlib

/-!
Formal model of the botcorebot per-user memory service and its HTTP/auth
boundary, translated from `src/lib/memory.ts`, `src/lib/auth.ts`,
`src/lib/supabase.ts` and the memory route handlers.

The per-user SQLite table `memories` is modelled as a `List MemoryRow`
(one list per user; no cross-user path exists in the code).  SQLite REAL
arithmetic is modelled with exact rationals; SQL statements are modelled
as the corresponding list transformations.  The content predicates of the
two recall search paths (FTS5 `MATCH` and `LIKE`) are delegated by the
code to SQLite, so the model takes them as parameters; none of the
verified properties depends on them.
-/

namespace BotCore

/-- A row of the `memories` table (schema in `getDb`, memory.ts). -/
structure MemoryRow where
  id : String
  content : String
  type : String
  importance : ℚ
  activation : ℚ
  created_at : String
  last_accessed : Option String
  metadata : Option String
deriving DecidableEq, Repr

/-! ### consolidate (memory.ts lines 231-265) -/

/-- The decay UPDATE of `consolidate`:
`UPDATE memories SET activation = activation * 0.95 WHERE activation > 0.01`,
expressed per row. -/
def decayRow (r : MemoryRow) : MemoryRow :=
  if r.activation > 1/100 then { r with activation := r.activation * (95/100) } else r

/-- The `stats` object of `ConsolidateResponse`. -/
structure ConsolidateStats where
  memories_before : Nat
  memories_after : Nat
  merged : Nat
  forgotten : Nat
deriving DecidableEq, Repr

/-- `MemoryService.consolidate`: count rows, decay rows with activation
above 0.01, delete rows with activation below 0.01 (`forgotten` is the
`changes` count of the DELETE), count rows again, report `merged = 0`. -/
def consolidate (db : List MemoryRow) : List MemoryRow × ConsolidateStats :=
  let beforeCount := db.length
  let decayed := db.map decayRow
  let kept := decayed.filter (fun r => !decide (r.activation < 1/100))
  let forgottenCount := (decayed.filter (fun r => decide (r.activation < 1/100))).length
  (kept, ⟨beforeCount, kept.length, 0, forgottenCount⟩)

/-! ### store (memory.ts lines 193-229) -/

/-- The row inserted by `MemoryService.store`: activation starts at 1.0,
`last_accessed` is NULL, the remaining fields are the arguments. -/
def mkStoredRow (id content ty : String) (importance : ℚ) (metadata : Option String)
    (now : String) : MemoryRow :=
  ⟨id, content, ty, importance, 1, now, none, metadata⟩

/-- `MemoryService.store`: INSERT the new row.  (The FTS index sync is a
side table not modelled here; it never touches `memories`.) -/
def store (id content ty : String) (importance : ℚ) (metadata : Option String)
    (now : String) (db : List MemoryRow) : List MemoryRow :=
  db ++ [mkStoredRow id content ty importance metadata now]

/-! ### recall (memory.ts lines 113-191) -/

/-- SQLite `LIMIT n` semantics: a negative limit means no limit. -/
def sqlLimit (n : ℤ) (xs : List MemoryRow) : List MemoryRow :=
  if n < 0 then xs else xs.take n.toNat

/-- The optional `AND type IN (...)` clause: added only when a non-empty
type list is supplied. -/
def typePass (types : List String) (r : MemoryRow) : Bool :=
  types.isEmpty || types.contains r.type

/-- Shared shape of the two recall SELECT statements: WHERE (content
predicate AND optional type filter), ORDER BY activation DESC, LIMIT.
`mergeSort` realises one permissible output of the ORDER BY. -/
def selectRows (pred : MemoryRow → Bool) (types : List String) (limit : ℤ)
    (db : List MemoryRow) : List MemoryRow :=
  sqlLimit limit
    ((db.filter (fun r => pred r && typePass types r)).mergeSort
      (fun a b => decide (b.activation ≤ a.activation)))

/-- The per-row UPDATE of recall:
`UPDATE memories SET last_accessed = ?, activation = MIN(activation * 1.1, 1.0) WHERE id = ?`. -/
def boostRow (now : String) (r : MemoryRow) : MemoryRow :=
  { r with last_accessed := some now, activation := min (r.activation * (11/10)) 1 }

/-- The recall update loop: one UPDATE statement per returned row, in
order; `id` is the PRIMARY KEY, so each statement rewrites the rows whose
id matches. -/
def applyRecallUpdates (now : String) (rows db : List MemoryRow) : List MemoryRow :=
  rows.foldl (fun acc row => acc.map (fun x => if x.id = row.id then boostRow now x else x)) db

/-- Model of `MemoryService.recall` (named `recallMem` because `recall` is
a reserved word here): select rows by the FTS path when the FTS
table is non-empty (`ftsCount` models its COUNT), otherwise by the LIKE
fallback; then run the update loop.  Returns the selected rows (the
values read before the update) and the updated table. -/
def recallMem (ftsPred likePred : MemoryRow → Bool) (types : List String) (limit : ℤ)
    (ftsCount : Nat) (now : String) (db : List MemoryRow) :
    List MemoryRow × List MemoryRow :=
  let rows := if 0 < ftsCount then selectRows ftsPred types limit db
              else selectRows likePred types limit db
  (rows, applyRecallUpdates now rows db)

/-! ### store route handler (app/api/v1/memory/store/route.ts) -/

/-- The closed set of valid memory types (route.ts `validTypes`). -/
def validTypes : List String := ["factual", "relational", "procedural", "episodic", "semantic"]

/-- A parsed store request body.  `none` models an absent (undefined)
field; string length is measured as in the route (`content.length`). -/
structure StoreBody where
  content : Option String
  type : Option String
  importance : Option ℚ
  metadata : Option String

/-- Outcome of a route invocation: HTTP status, machine-readable error
code (empty on success), the resulting table, and whether the memory
service was invoked. -/
structure RouteOutcome where
  status : Nat
  code : String
  db : List MemoryRow
  serviceInvoked : Bool

/-- The `body.type` check of the store route: rejected only when the
field is present, truthy and not in `validTypes`. -/
def typeFieldOk (ty : Option String) : Bool :=
  match ty with
  | none => true
  | some t => decide (t = "") || validTypes.contains t

/-- The `body.importance` check of the store route: rejected only when
the field is present and outside [0, 1]. -/
def importanceFieldOk (imp : Option ℚ) : Bool :=
  match imp with
  | none => true
  | some i => decide (0 ≤ i) && decide (i ≤ 1)

/-- The store route handler, after JSON parsing and authentication:
validates `content` (present, non-empty, at most 10000 characters), the
optional `type` and `importance` fields, and only then invokes
`MemoryService.store` (JS default arguments fill in `factual` and 0.5
when the fields are undefined). -/
def storeRoute (body : StoreBody) (id now : String) (db : List MemoryRow) : RouteOutcome :=
  match body.content with
  | none => ⟨400, "VALIDATION_ERROR", db, false⟩
  | some c =>
    if c = "" then ⟨400, "VALIDATION_ERROR", db, false⟩
    else if 10000 < c.length then ⟨400, "VALIDATION_ERROR", db, false⟩
    else if !typeFieldOk body.type then ⟨400, "VALIDATION_ERROR", db, false⟩
    else if !importanceFieldOk body.importance then ⟨400, "VALIDATION_ERROR", db, false⟩
    else
      ⟨201, "",
        store id c (body.type.getD "factual") (body.importance.getD (1/2)) body.metadata now db,
        true⟩

/-! ### auth and quota (lib/auth.ts, lib/supabase.ts) -/

/-- API key tiers. -/
inductive Tier where
  | free
  | pro
  | enterprise
deriving DecidableEq, Repr

/-- Per-minute request ceilings (supabase.ts `checkQuota`); the free and
pro ceilings come from environment variables, enterprise is fixed. -/
def tierLimit (rateFree ratePro : Nat) : Tier → Nat
  | .free => rateFree
  | .pro => ratePro
  | .enterprise => 1000

/-- Result record of `checkQuota`. -/
structure QuotaResult where
  allowed : Bool
  remaining : Nat
deriving DecidableEq, Repr

/-- `checkQuota`: `countRes` models the usage-count query over the
preceding 60 seconds (`.error` a failed query, `.ok` a count that may be
null).  On error it fails open; otherwise `allowed := used < limit` and
`remaining := max 0 (limit - used)` (here truncated subtraction). -/
def checkQuota (countRes : Except Unit (Option Nat)) (limit : Nat) : QuotaResult :=
  match countRes with
  | .error _ => ⟨true, 0⟩
  | .ok c =>
    let used := c.getD 0
    ⟨decide (used < limit), limit - used⟩

/-- Split a character list at every single space, keeping empty
segments, as JS `split(' ')` does. -/
def splitSpacesAux : List Char → List Char → List (List Char)
  | [], acc => [acc.reverse]
  | c :: cs, acc =>
    if c = ' ' then acc.reverse :: splitSpacesAux cs []
    else splitSpacesAux cs (c :: acc)

/-- JS `s.split(' ')`. -/
def splitSpaces (s : String) : List String :=
  (splitSpacesAux s.data []).map String.mk

/-- JS `toLowerCase` restricted to its ASCII behaviour. -/
def lowerAscii (s : String) : String := ⟨s.data.map Char.toLower⟩

/-- `extractBearerToken` (auth.ts): split the Authorization header on
single spaces, require a case-insensitive `bearer` scheme and a truthy
token. -/
def extractBearerToken (header : Option String) : Option String :=
  match header with
  | none => none
  | some s =>
    match splitSpaces s with
    | [] => none
    | [_] => none
    | scheme :: token :: _ =>
      if lowerAscii scheme = "bearer" ∧ token ≠ "" then some token else none

/-- A shaped HTTP response: status, error code (empty on success), and
the two rate-limit headers the spec names. -/
structure HttpResponse where
  status : Nat
  code : String
  retryAfter : Option String
  rlRemaining : Option String
deriving DecidableEq, Repr

/-- Result of `authenticateRequest`. -/
inductive AuthOutcome where
  | err (resp : HttpResponse)
  | ok (userId : String) (tier : Tier)
deriving DecidableEq, Repr

/-- `authenticateRequest` (auth.ts): extract the bearer token, validate
the key (`validation` models the hashed-key lookup, an external call),
then check the quota; quota refusal returns 429 with code RATE_LIMITED,
header `Retry-After: 60` and header `X-RateLimit-Remaining: 0`. -/
def authenticateRequest (header : Option String)
    (validation : String → Option (String × Tier))
    (countRes : Except Unit (Option Nat)) (rateFree ratePro : Nat) : AuthOutcome :=
  match extractBearerToken header with
  | none => .err ⟨401, "UNAUTHORIZED", none, none⟩
  | some key =>
    match validation key with
    | none => .err ⟨401, "UNAUTHORIZED", none, none⟩
    | some (uid, tier) =>
      let quota := checkQuota countRes (tierLimit rateFree ratePro tier)
      if quota.allowed then .ok uid tier
      else .err ⟨429, "RATE_LIMITED", some "60", some "0"⟩

/-- `withAuth` (auth.ts): run `authenticateRequest`; on error return the
error response without invoking the handler, otherwise invoke the
handler.  The third component records whether the handler ran.  (The
usage logging and the rate-limit header added to success responses are
external side effects not modelled.) -/
def withAuth (header : Option String) (validation : String → Option (String × Tier))
    (countRes : Except Unit (Option Nat)) (rateFree ratePro : Nat)
    (handler : String → Tier → List MemoryRow → HttpResponse × List MemoryRow)
    (db : List MemoryRow) : HttpResponse × List MemoryRow × Bool :=
  match authenticateRequest header validation countRes rateFree ratePro with
  | .err r => (r, db, false)
  | .ok uid tier =>
    let hr := handler uid tier db
    (hr.1, hr.2, true)

/-! ### reachable states and maintenance sequences -/

/-- One service operation on a user table, as executed by the code. -/
inductive Step : List MemoryRow → List MemoryRow → Prop where
  | storeStep (id content ty : String) (imp : ℚ) (md : Option String) (now : String)
      (db : List MemoryRow) : Step db (store id content ty imp md now db)
  | recallStep (fp lp : MemoryRow → Bool) (types : List String) (limit : ℤ) (ftsCount : Nat)
      (now : String) (db : List MemoryRow) :
      Step db (recallMem fp lp types limit ftsCount now db).2
  | consolidateStep (db : List MemoryRow) : Step db (consolidate db).1

/-- Tables reachable from the freshly created (empty) table by store,
recall and consolidate. -/
inductive Reachable : List MemoryRow → Prop where
  | nil : Reachable []
  | step {db db' : List MemoryRow} : Reachable db → Step db db' → Reachable db'

/-- A maintenance operation: recall or consolidate (no store). -/
inductive MaintOp where
  | recallOp (fp lp : MemoryRow → Bool) (types : List String) (limit : ℤ) (ftsCount : Nat)
      (now : String)
  | consolidateOp

/-- Apply one maintenance operation to a table. -/
def applyMaint (db : List MemoryRow) : MaintOp → List MemoryRow
  | .recallOp fp lp types limit ftsCount now => (recallMem fp lp types limit ftsCount now db).2
  | .consolidateOp => (consolidate db).1

/-- Apply a sequence of maintenance operations. -/
def runMaint (db : List MemoryRow) (ops : List MaintOp) : List MemoryRow :=
  ops.foldl applyMaint db

/-- Equality of all fields that neither recall nor consolidate writes:
everything except `activation` and `last_accessed`. -/
def FrameEq (r s : MemoryRow) : Prop :=
  s.id = r.id ∧ s.content = r.content ∧ s.type = r.type ∧
  s.importance = r.importance ∧ s.created_at = r.created_at ∧ s.metadata = r.metadata

/-! ### helper lemmas -/

lemma applyRecallUpdates_nil (now : String) (db : List MemoryRow) :
    applyRecallUpdates now [] db = db := rfl

lemma applyRecallUpdates_cons (now : String) (r : MemoryRow) (rs db : List MemoryRow) :
    applyRecallUpdates now (r :: rs) db =
      applyRecallUpdates now rs (db.map (fun x => if x.id = r.id then boostRow now x else x)) := rfl

/-- A pointwise property preserved by `boostRow` is preserved by the
recall update loop. -/
lemma applyRecallUpdates_pres (now : String) (P : MemoryRow → Prop)
    (hB : ∀ x, P x → P (boostRow now x)) :
    ∀ (rows db : List MemoryRow), (∀ x ∈ db, P x) →
      ∀ y ∈ applyRecallUpdates now rows db, P y := by
  intro rows
  induction rows with
  | nil =>
    intro db h y hy
    rw [applyRecallUpdates_nil] at hy
    exact h y hy
  | cons r rs ih =>
    intro db h y hy
    rw [applyRecallUpdates_cons] at hy
    refine ih _ ?_ y hy
    intro x hx
    rcases List.mem_map.mp hx with ⟨a, ha, rfl⟩
    by_cases hid : a.id = r.id
    · simpa [hid] using hB a (h a ha)
    · simpa [hid] using h a ha

/-- Every row of the table after the recall update loop descends from a
row of the table before it, along a reflexive transitive relation that
absorbs `boostRow`. -/
lemma applyRecallUpdates_trace (now : String) (R : MemoryRow → MemoryRow → Prop)
    (hrefl : ∀ x, R x x)
    (htrans : ∀ x y z, R x y → R y z → R x z)
    (hB : ∀ y, R y (boostRow now y)) :
    ∀ (rows db : List MemoryRow), ∀ y ∈ applyRecallUpdates now rows db,
      ∃ x ∈ db, R x y := by
  intro rows
  induction rows with
  | nil =>
    intro db y hy
    rw [applyRecallUpdates_nil] at hy
    exact ⟨y, hy, hrefl y⟩
  | cons r rs ih =>
    intro db y hy
    rw [applyRecallUpdates_cons] at hy
    rcases ih _ y hy with ⟨x₁, hx₁, hR⟩
    rcases List.mem_map.mp hx₁ with ⟨a, ha, rfl⟩
    refine ⟨a, ha, ?_⟩
    by_cases hid : a.id = r.id
    · rw [if_pos hid] at hR
      exact htrans _ _ _ (hB a) hR
    · rw [if_neg hid] at hR
      exact hR

lemma boostRow_id (now : String) (x : MemoryRow) : (boostRow now x).id = x.id := rfl

/-- When the selected rows have pairwise distinct ids, the recall update
loop is the single pass that boosts exactly the rows whose id occurs
among the selected ids. -/
lemma applyRecallUpdates_eq_map (now : String) :
    ∀ (rows db : List MemoryRow), (rows.map MemoryRow.id).Nodup →
      applyRecallUpdates now rows db =
        db.map (fun x => if rows.any (fun q => decide (x.id = q.id)) then boostRow now x else x) := by
  intro rows
  induction rows with
  | nil =>
    intro db _
    simp [applyRecallUpdates_nil]
  | cons r rs ih =>
    intro db hnd
    have hnds : (r.id :: rs.map MemoryRow.id).Nodup := by simpa using hnd
    have hnd' : (rs.map MemoryRow.id).Nodup := (List.nodup_cons.mp hnds).2
    have hrid : r.id ∉ rs.map MemoryRow.id := (List.nodup_cons.mp hnds).1
    rw [applyRecallUpdates_cons, ih _ hnd', List.map_map]
    refine List.map_congr_left ?_
    intro x _
    by_cases hid : x.id = r.id
    · have hfalse : rs.any (fun q => decide ((boostRow now x).id = q.id)) = false := by
        rw [List.any_eq_false]
        intro q hq
        simp only [boostRow_id, decide_eq_true_eq]
        intro hcon
        apply hrid
        rw [← hid, hcon]
        exact List.mem_map_of_mem MemoryRow.id hq
      simp [Function.comp, hid, hfalse]
    · simp [Function.comp, hid]

/-- Membership and filter facts for the rows selected by either recall
path. -/
lemma mem_selectRows (pred : MemoryRow → Bool) (types : List String) (limit : ℤ)
    (db : List MemoryRow) (r : MemoryRow) (hr : r ∈ selectRows pred types limit db) :
    r ∈ db ∧ pred r = true ∧ typePass types r = true := by
  unfold selectRows sqlLimit at hr
  have hr2 : r ∈ (db.filter (fun x => pred x && typePass types x)).mergeSort
      (fun a b => decide (b.activation ≤ a.activation)) := by
    by_cases h : limit < 0
    · simpa [h] using hr
    · rw [if_neg h] at hr
      exact List.mem_of_mem_take hr
  rw [List.mem_mergeSort] at hr2
  have h3 := List.mem_filter.mp hr2
  have h4 : pred r = true ∧ typePass types r = true := by simpa using h3.2
  exact ⟨h3.1, h4.1, h4.2⟩

/-- Distinct ids in the table give distinct ids among selected rows. -/
lemma selectRows_ids_nodup (pred : MemoryRow → Bool) (types : List String) (limit : ℤ)
    (db : List MemoryRow) (h : (db.map MemoryRow.id).Nodup) :
    ((selectRows pred types limit db).map MemoryRow.id).Nodup := by
  unfold selectRows sqlLimit
  have h1 : ((db.filter (fun x => pred x && typePass types x)).map MemoryRow.id).Nodup :=
    h.sublist ((List.filter_sublist db).map MemoryRow.id)
  have h2 : (((db.filter (fun x => pred x && typePass types x)).mergeSort
      (fun a b => decide (b.activation ≤ a.activation))).map MemoryRow.id).Nodup :=
    (((List.mergeSort_perm _ _).map MemoryRow.id).nodup_iff).mpr h1
  by_cases hl : limit < 0
  · simpa [hl] using h2
  · rw [if_neg hl]
    exact h2.sublist ((List.take_sublist _ _).map MemoryRow.id)

/-- Partition of a list length by a Boolean filter. -/
lemma filter_partition_length {α : Type} (p : α → Bool) (l : List α) :
    (l.filter p).length + (l.filter (fun a => !(p a))).length = l.length := by
  induction l with
  | nil => simp
  | cons a t ih =>
    cases h : p a <;> simp [List.filter, h, ih] <;> omega

/-- `boostRow` keeps activation strictly positive and at most 1. -/
lemma boostRow_act_pos_le (now : String) (x : MemoryRow)
    (h : 0 < x.activation ∧ x.activation ≤ 1) :
    0 < (boostRow now x).activation ∧ (boostRow now x).activation ≤ 1 := by
  unfold boostRow
  refine ⟨lt_min (by nlinarith [h.1]) one_pos, min_le_right _ _⟩

/-- `decayRow` keeps activation strictly positive and at most 1. -/
lemma decayRow_act_pos_le (x : MemoryRow)
    (h : 0 < x.activation ∧ x.activation ≤ 1) :
    0 < (decayRow x).activation ∧ (decayRow x).activation ≤ 1 := by
  unfold decayRow
  split
  · exact ⟨by nlinarith [h.1], by nlinarith [h.1, h.2]⟩
  · exact h

/-- Each service operation preserves the activation bounds 0 < a ≤ 1. -/
lemma step_act_pos_le {db db' : List MemoryRow} (hs : Step db db')
    (h : ∀ r ∈ db, 0 < r.activation ∧ r.activation ≤ 1) :
    ∀ r ∈ db', 0 < r.activation ∧ r.activation ≤ 1 := by
  cases hs with
  | storeStep id content ty imp md now db =>
    intro r hr
    rcases List.mem_append.mp hr with h1 | h1
    · exact h r h1
    · have : r = mkStoredRow id content ty imp md now := by simpa using h1
      subst this
      simp [mkStoredRow]
  | recallStep fp lp types limit ftsCount now db =>
    intro r hr
    have hr2 : r ∈ applyRecallUpdates now
        (if 0 < ftsCount then selectRows fp types limit db
         else selectRows lp types limit db) db := hr
    exact applyRecallUpdates_pres now _ (boostRow_act_pos_le now) _ db h r hr2
  | consolidateStep db =>
    intro r hr
    have hr2 : r ∈ (db.map decayRow).filter (fun x => !decide (x.activation < 1/100)) := hr
    rcases List.mem_map.mp (List.mem_filter.mp hr2).1 with ⟨a, ha, rfl⟩
    exact decayRow_act_pos_le a (h a ha)

/-- In every reachable table, each activation is in (0, 1]. -/
lemma reachable_act_pos_le {db : List MemoryRow} (h : Reachable db) :
    ∀ r ∈ db, 0 < r.activation ∧ r.activation ≤ 1 := by
  induction h with
  | nil => intro r hr; simp at hr
  | step _ hs ih => exact step_act_pos_le hs ih

lemma frameEq_refl (r : MemoryRow) : FrameEq r r := ⟨rfl, rfl, rfl, rfl, rfl, rfl⟩

lemma frameEq_trans {x y z : MemoryRow} (h1 : FrameEq x y) (h2 : FrameEq y z) : FrameEq x z :=
  ⟨h2.1.trans h1.1, h2.2.1.trans h1.2.1, h2.2.2.1.trans h1.2.2.1,
   h2.2.2.2.1.trans h1.2.2.2.1, h2.2.2.2.2.1.trans h1.2.2.2.2.1,
   h2.2.2.2.2.2.trans h1.2.2.2.2.2⟩

lemma frameEq_boost (now : String) (y : MemoryRow) : FrameEq y (boostRow now y) :=
  ⟨rfl, rfl, rfl, rfl, rfl, rfl⟩

lemma frameEq_decay (x : MemoryRow) : FrameEq x (decayRow x) := by
  unfold decayRow
  split
  · exact ⟨rfl, rfl, rfl, rfl, rfl, rfl⟩
  · exact frameEq_refl x

/-- Every row surviving a single maintenance operation descends, frame
fields intact, from a row of the previous table. -/
lemma applyMaint_trace (db : List MemoryRow) (op : MaintOp) :
    ∀ r ∈ applyMaint db op, ∃ s ∈ db, FrameEq s r := by
  cases op with
  | recallOp fp lp types limit ftsCount now =>
    intro r hr
    have hr2 : r ∈ applyRecallUpdates now
        (if 0 < ftsCount then selectRows fp types limit db
         else selectRows lp types limit db) db := hr
    exact applyRecallUpdates_trace now FrameEq frameEq_refl
      (fun x y z => frameEq_trans) (frameEq_boost now) _ db r hr2
  | consolidateOp =>
    intro r hr
    have hr2 : r ∈ (db.map decayRow).filter (fun x => !decide (x.activation < 1/100)) := hr
    rcases List.mem_map.mp (List.mem_filter.mp hr2).1 with ⟨a, ha, rfl⟩
    exact ⟨a, ha, frameEq_decay a⟩

/-- Every row surviving a sequence of maintenance operations descends,
frame fields intact, from a row of the starting table. -/
lemma runMaint_trace (ops : List MaintOp) :
    ∀ (db : List MemoryRow), ∀ r ∈ runMaint db ops, ∃ s ∈ db, FrameEq s r := by
  induction ops with
  | nil =>
    intro db r hr
    exact ⟨r, hr, frameEq_refl r⟩
  | cons op ops ih =>
    intro db r hr
    have hr2 : r ∈ runMaint (applyMaint db op) ops := hr
    rcases ih _ r hr2 with ⟨s, hs, hF⟩
    rcases applyMaint_trace db op s hs with ⟨t, ht, hF2⟩
    exact ⟨t, ht, frameEq_trans hF2 hF⟩

lemma recallMem_fst (fp lp : MemoryRow → Bool) (types : List String) (limit : ℤ)
    (ftsCount : Nat) (now : String) (db : List MemoryRow) :
    (recallMem fp lp types limit ftsCount now db).1 =
      if 0 < ftsCount then selectRows fp types limit db
      else selectRows lp types limit db := rfl

lemma recallMem_snd (fp lp : MemoryRow → Bool) (types : List String) (limit : ℤ)
    (ftsCount : Nat) (now : String) (db : List MemoryRow) :
    (recallMem fp lp types limit ftsCount now db).2 =
      applyRecallUpdates now (recallMem fp lp types limit ftsCount now db).1 db := rfl

/-- Every row returned by recall is a row of the table as read before
the update loop, and satisfies the WHERE clause of the path taken. -/
lemma recallMem_rows_mem (fp lp : MemoryRow → Bool) (types : List String) (limit : ℤ)
    (ftsCount : Nat) (now : String) (db : List MemoryRow) (r : MemoryRow)
    (hr : r ∈ (recallMem fp lp types limit ftsCount now db).1) :
    r ∈ db ∧ typePass types r = true := by
  rw [recallMem_fst] at hr
  by_cases hf : 0 < ftsCount
  · rw [if_pos hf] at hr
    have h := mem_selectRows fp types limit db r hr
    exact ⟨h.1, h.2.2⟩
  · rw [if_neg hf] at hr
    have h := mem_selectRows lp types limit db r hr
    exact ⟨h.1, h.2.2⟩

lemma recallMem_rows_ids_nodup (fp lp : MemoryRow → Bool) (types : List String) (limit : ℤ)
    (ftsCount : Nat) (now : String) (db : List MemoryRow)
    (hN : (db.map MemoryRow.id).Nodup) :
    (((recallMem fp lp types limit ftsCount now db).1).map MemoryRow.id).Nodup := by
  rw [recallMem_fst]
  by_cases hf : 0 < ftsCount
  · rw [if_pos hf]
    exact selectRows_ids_nodup fp types limit db hN
  · rw [if_neg hf]
    exact selectRows_ids_nodup lp types limit db hN

/-- For a table with distinct ids, every row returned by recall is a row
of the pre-update table, and the updated table contains a row with the
same id whose last-accessed time is `now` and whose activation is the
clamped boost of the returned activation. -/
lemma recallMem_update_spec (fp lp : MemoryRow → Bool) (types : List String) (limit : ℤ)
    (ftsCount : Nat) (now : String) (db : List MemoryRow)
    (hN : (db.map MemoryRow.id).Nodup) (r : MemoryRow)
    (hr : r ∈ (recallMem fp lp types limit ftsCount now db).1) :
    r ∈ db ∧ ∃ r' ∈ (recallMem fp lp types limit ftsCount now db).2,
      r'.id = r.id ∧ r'.last_accessed = some now ∧
      r'.activation = min (r.activation * (11/10)) 1 := by
  have hrdb := (recallMem_rows_mem fp lp types limit ftsCount now db r hr).1
  have hnd := recallMem_rows_ids_nodup fp lp types limit ftsCount now db hN
  have hmap := applyRecallUpdates_eq_map now (recallMem fp lp types limit ftsCount now db).1 db hnd
  refine ⟨hrdb, boostRow now r, ?_, rfl, rfl, rfl⟩
  rw [recallMem_snd, hmap]
  have hany : (recallMem fp lp types limit ftsCount now db).1.any
      (fun q => decide (r.id = q.id)) = true :=
    List.any_eq_true.mpr ⟨r, hr, by simp⟩
  have hfun : boostRow now r =
      (fun x => if (recallMem fp lp types limit ftsCount now db).1.any
        (fun q => decide (x.id = q.id)) then boostRow now x else x) r := by
    simp [hany]
  rw [hfun]
  exact List.mem_map_of_mem _ hrdb

lemma selectRows_length_le (pred : MemoryRow → Bool) (types : List String) (limit : ℤ)
    (db : List MemoryRow) (h : 0 ≤ limit) :
    (selectRows pred types limit db).length ≤ limit.toNat := by
  unfold selectRows sqlLimit
  rw [if_neg (not_lt.mpr h)]
  exact List.length_take_le _ _

lemma typePass_mem {types : List String} {r : MemoryRow} (hne : types ≠ [])
    (h : typePass types r = true) : r.type ∈ types := by
  unfold typePass at h
  cases types with
  | nil => exact absurd rfl hne
  | cons t ts =>
    have h2 : (t :: ts).contains r.type = true := by simpa [List.isEmpty] using h
    simpa [List.contains] using h2

/-! ### claim theorems -/

/-- Claim C1: for every memory state, `consolidate()` multiplies by 0.95
the activation of exactly those records whose activation exceeds 0.01,
then deletes exactly those records whose activation is below 0.01
(including records decayed in the same pass); consequently, after
`consolidate()` returns, every remaining record has activation ≥ 0.01. -/
theorem consolidate_decay_forget_spec (db : List MemoryRow) :
    ((consolidate db).1 =
      (db.map decayRow).filter (fun r => !decide (r.activation < 1/100))) ∧
    (∀ r : MemoryRow, (decayRow r).activation =
      if 1/100 < r.activation then r.activation * (95/100) else r.activation) ∧
    (∀ r ∈ (consolidate db).1, 1/100 ≤ r.activation) := by
  refine ⟨rfl, ?_, ?_⟩
  · intro r
    unfold decayRow
    by_cases hc : (1:ℚ)/100 < r.activation
    · rw [if_pos hc, if_pos hc]
    · rw [if_neg hc, if_neg hc]
  · intro r hr
    have hr2 : r ∈ (db.map decayRow).filter (fun x => !decide (x.activation < 1/100)) := hr
    have h2 : ¬ r.activation < 1/100 := by simpa using (List.mem_filter.mp hr2).2
    exact not_lt.mp h2

/-- The row stored in the concrete scenario of the spec (content "User
prefers Python", type relational, importance 0.8). -/
def rowA : MemoryRow := mkStoredRow "a" "User prefers Python" "relational" (4/5) none "t0"

theorem consolidate_decay_forget_witness : (1:ℚ)/100 ≤ (decayRow rowA).activation := by
  apply (consolidate_decay_forget_spec [rowA]).2.2 (decayRow rowA)
  have hact : ¬ ((decayRow rowA).activation < 1/100) := by
    norm_num [decayRow, rowA, mkStoredRow]
  have hp : (!decide ((decayRow rowA).activation < 1/100)) = true := by
    simp only [Bool.not_eq_true', decide_eq_false_iff_not]
    exact hact
  show decayRow rowA ∈ ([rowA].map decayRow).filter (fun x => !decide (x.activation < 1/100))
  refine List.mem_filter.mpr ⟨?_, hp⟩
  simp

/-- Claim C4: for every `consolidate()` call, the returned stats satisfy
`memories_after = memories_before − forgotten` exactly, and the merged
count is always 0. -/
theorem consolidate_stats_exact_spec (db : List MemoryRow) :
    ((consolidate db).2.memories_after + (consolidate db).2.forgotten
      = (consolidate db).2.memories_before) ∧
    ((consolidate db).2.memories_after
      = (consolidate db).2.memories_before - (consolidate db).2.forgotten) ∧
    (consolidate db).2.forgotten ≤ (consolidate db).2.memories_before ∧
    (consolidate db).2.merged = 0 := by
  have h := filter_partition_length (fun r => decide (r.activation < 1/100)) (db.map decayRow)
  simp only [List.length_map] at h
  have ha : (consolidate db).2.memories_after =
      ((db.map decayRow).filter (fun r => !decide (r.activation < 1/100))).length := rfl
  have hb : (consolidate db).2.memories_before = db.length := rfl
  have hf : (consolidate db).2.forgotten =
      ((db.map decayRow).filter (fun r => decide (r.activation < 1/100))).length := rfl
  refine ⟨?_, ?_, ?_, rfl⟩ <;> omega

/-- Claim C5: every activation lies in [0,1] in every state reachable by
store, recall and consolidate: store initializes activation to 1.0,
recall replaces a by min(1.1·a, 1.0), and consolidate replaces a by
0.95·a, each of which maps [0,1] into [0,1]. -/
theorem activation_unit_interval_spec :
    (∀ db : List MemoryRow, Reachable db →
      ∀ r ∈ db, 0 ≤ r.activation ∧ r.activation ≤ 1) ∧
    (∀ (id content ty : String) (imp : ℚ) (md : Option String) (now : String),
      (mkStoredRow id content ty imp md now).activation = 1) ∧
    (∀ (now : String) (r : MemoryRow), 0 ≤ r.activation → r.activation ≤ 1 →
      0 ≤ (boostRow now r).activation ∧ (boostRow now r).activation ≤ 1) ∧
    (∀ r : MemoryRow, 0 ≤ r.activation → r.activation ≤ 1 →
      0 ≤ (decayRow r).activation ∧ (decayRow r).activation ≤ 1) := by
  refine ⟨?_, fun _ _ _ _ _ _ => rfl, ?_, ?_⟩
  · intro db hdb r hr
    have h := reachable_act_pos_le hdb r hr
    exact ⟨le_of_lt h.1, h.2⟩
  · intro now r h0 h1
    unfold boostRow
    exact ⟨le_min (by nlinarith) zero_le_one, min_le_right _ _⟩
  · intro r h0 h1
    unfold decayRow
    split
    · exact ⟨by nlinarith, by nlinarith⟩
    · exact ⟨h0, h1⟩

theorem activation_unit_interval_witness :
    0 ≤ rowA.activation ∧ rowA.activation ≤ 1 :=
  activation_unit_interval_spec.1 [rowA]
    (Reachable.step Reachable.nil
      (Step.storeStep "a" "User prefers Python" "relational" (4/5) none "t0" []))
    rowA (by simp)

/-- Claim C2: for every recall call and every record in its result set,
the stored record gets last-accessed set to now and activation replaced
by min(1.1·a, 1.0); hence repeated recall strictly increases the stored
activation while it is below 1.0, holds it at 1.0 otherwise, and
activation never exceeds 1.0. -/
theorem recall_boost_clamp_spec (fp lp : MemoryRow → Bool) (types : List String)
    (limit : ℤ) (ftsCount : Nat) (now : String) (db : List MemoryRow)
    (hReach : Reachable db) (hN : (db.map MemoryRow.id).Nodup) :
    ∀ r ∈ (recallMem fp lp types limit ftsCount now db).1,
      ∃ r' ∈ (recallMem fp lp types limit ftsCount now db).2,
        r'.id = r.id ∧ r'.last_accessed = some now ∧
        r'.activation = min (r.activation * (11/10)) 1 ∧
        (r.activation < 1 → r.activation < r'.activation) ∧
        r'.activation ≤ 1 ∧
        (r.activation = 1 → r'.activation = 1) := by
  intro r hr
  rcases recallMem_update_spec fp lp types limit ftsCount now db hN r hr with
    ⟨hrdb, r', hmem, hid, hla, hact⟩
  have hb := reachable_act_pos_le hReach r hrdb
  refine ⟨r', hmem, hid, hla, hact, ?_, ?_, ?_⟩
  · intro hlt
    rw [hact]
    exact lt_min (by nlinarith [hb.1]) hlt
  · rw [hact]
    exact min_le_right _ _
  · intro heq
    rw [hact, heq, one_mul]
    exact min_eq_right (by norm_num)

theorem recall_boost_clamp_witness :
    ∃ r' ∈ (recallMem (fun _ => true) (fun _ => true) [] 10 0 "t1" [rowA]).2,
      r'.id = rowA.id ∧ r'.last_accessed = some "t1" ∧
      r'.activation = min (rowA.activation * (11/10)) 1 ∧
      (rowA.activation < 1 → rowA.activation < r'.activation) ∧
      r'.activation ≤ 1 ∧
      (rowA.activation = 1 → r'.activation = 1) :=
  recall_boost_clamp_spec (fun _ => true) (fun _ => true) [] 10 0 "t1" [rowA]
    (Reachable.step Reachable.nil
      (Step.storeStep "a" "User prefers Python" "relational" (4/5) none "t0" []))
    (by simp) rowA
    (by norm_num [recallMem, selectRows, sqlLimit, typePass, Int.toNat_ofNat, List.take_of_length_le])

/-- Claim C3 (implicit): the Memory objects returned by recall carry the
activation and last-accessed values read before the boost; the stored
rows are updated to the boosted activation and the new last-accessed
time, while the returned rows are rows of the pre-update table. -/
theorem recall_returns_preboost_spec (fp lp : MemoryRow → Bool) (types : List String)
    (limit : ℤ) (ftsCount : Nat) (now : String) (db : List MemoryRow)
    (hN : (db.map MemoryRow.id).Nodup) :
    ∀ r ∈ (recallMem fp lp types limit ftsCount now db).1,
      r ∈ db ∧ ∃ r' ∈ (recallMem fp lp types limit ftsCount now db).2,
        r'.id = r.id ∧ r'.last_accessed = some now ∧
        r'.activation = min (r.activation * (11/10)) 1 :=
  fun r hr => recallMem_update_spec fp lp types limit ftsCount now db hN r hr

theorem recall_returns_preboost_witness :
    rowA ∈ [rowA] ∧ ∃ r' ∈ (recallMem (fun _ => true) (fun _ => true) [] 10 0 "t1" [rowA]).2,
      r'.id = rowA.id ∧ r'.last_accessed = some "t1" ∧
      r'.activation = min (rowA.activation * (11/10)) 1 :=
  recall_returns_preboost_spec (fun _ => true) (fun _ => true) [] 10 0 "t1" [rowA]
    (by simp) rowA
    (by norm_num [recallMem, selectRows, sqlLimit, typePass, Int.toNat_ofNat, List.take_of_length_le])

/-- Claim C6: recall returns at most `limit` records, and when a
non-empty type set is supplied every returned record has a type in that
set, on both the FTS path and the substring-fallback path. -/
theorem recall_limit_types_spec (fp lp : MemoryRow → Bool) (types : List String)
    (limit : ℤ) (ftsCount : Nat) (now : String) (db : List MemoryRow)
    (hlim : 1 ≤ limit) :
    (recallMem fp lp types limit ftsCount now db).1.length ≤ limit.toNat ∧
    (types ≠ [] → ∀ r ∈ (recallMem fp lp types limit ftsCount now db).1,
      r.type ∈ types) := by
  have h0 : (0:ℤ) ≤ limit := by linarith
  constructor
  · rw [recallMem_fst]
    by_cases hf : 0 < ftsCount
    · rw [if_pos hf]
      exact selectRows_length_le fp types limit db h0
    · rw [if_neg hf]
      exact selectRows_length_le lp types limit db h0
  · intro hne r hr
    exact typePass_mem hne (recallMem_rows_mem fp lp types limit ftsCount now db r hr).2

theorem recall_limit_types_witness :
    (recallMem (fun _ => true) (fun _ => true) ["relational"] 10 0 "t1" [rowA]).1.length
      ≤ (10:ℤ).toNat ∧
    (["relational"] ≠ [] →
      ∀ r ∈ (recallMem (fun _ => true) (fun _ => true) ["relational"] 10 0 "t1" [rowA]).1,
        r.type ∈ ["relational"]) :=
  recall_limit_types_spec (fun _ => true) (fun _ => true) ["relational"] 10 0 "t1" [rowA]
    (by norm_num)

/-- Claim C7: a store request whose content is longer than 10000
characters is rejected with HTTP 400 and code VALIDATION_ERROR, the
memory service is never invoked, and the store state is unchanged. -/
theorem store_route_content_length_spec (body : StoreBody) (c id now : String)
    (db : List MemoryRow) (hc : body.content = some c) (hlen : 10000 < c.length) :
    (storeRoute body id now db).status = 400 ∧
    (storeRoute body id now db).code = "VALIDATION_ERROR" ∧
    (storeRoute body id now db).db = db ∧
    (storeRoute body id now db).serviceInvoked = false := by
  have hne : c ≠ "" := by
    intro he
    rw [he] at hlen
    have h0 : ("" : String).length = 0 := rfl
    rw [h0] at hlen
    exact Nat.not_lt_zero 10000 hlen
  unfold storeRoute
  rw [hc]
  simp [hne, hlen]

/-- A content string of 10001 characters. -/
def longContent : String := ⟨List.replicate 10001 'a'⟩

theorem store_route_content_length_witness :
    (storeRoute ⟨some longContent, none, none, none⟩ "id1" "t0" []).status = 400 ∧
    (storeRoute ⟨some longContent, none, none, none⟩ "id1" "t0" []).code = "VALIDATION_ERROR" ∧
    (storeRoute ⟨some longContent, none, none, none⟩ "id1" "t0" []).db = [] ∧
    (storeRoute ⟨some longContent, none, none, none⟩ "id1" "t0" []).serviceInvoked = false :=
  store_route_content_length_spec _ longContent "id1" "t0" [] rfl
    (by show 10000 < (List.replicate 10001 'a').length
        rw [List.length_replicate]
        decide)

/-- Claim C8: importance is set once at creation and never modified:
recall updates only last-accessed and activation, consolidate updates
only activation or deletes rows; every record surviving any sequence of
recall and consolidate keeps the importance, content, type, metadata and
created timestamp it was given at creation, and the row store creates
carries exactly the given values. -/
theorem importance_frame_spec :
    (∀ (ops : List MaintOp) (db : List MemoryRow), ∀ r ∈ runMaint db ops,
      ∃ s ∈ db, FrameEq s r) ∧
    (∀ (id content ty : String) (imp : ℚ) (md : Option String) (now : String)
        (db : List MemoryRow),
      store id content ty imp md now db = db ++ [mkStoredRow id content ty imp md now] ∧
      (mkStoredRow id content ty imp md now).importance = imp ∧
      (mkStoredRow id content ty imp md now).content = content ∧
      (mkStoredRow id content ty imp md now).type = ty ∧
      (mkStoredRow id content ty imp md now).metadata = md ∧
      (mkStoredRow id content ty imp md now).created_at = now) :=
  ⟨fun ops db => runMaint_trace ops db,
   fun _ _ _ _ _ _ _ => ⟨rfl, rfl, rfl, rfl, rfl, rfl⟩⟩

theorem importance_frame_witness :
    ∃ s ∈ [rowA], FrameEq s (decayRow rowA) := by
  apply importance_frame_spec.1 [MaintOp.consolidateOp] [rowA] (decayRow rowA)
  have hact : ¬ ((decayRow rowA).activation < 1/100) := by
    norm_num [decayRow, rowA, mkStoredRow]
  have hp : (!decide ((decayRow rowA).activation < 1/100)) = true := by
    simp only [Bool.not_eq_true', decide_eq_false_iff_not]
    exact hact
  show decayRow rowA ∈ ([rowA].map decayRow).filter (fun x => !decide (x.activation < 1/100))
  exact List.mem_filter.mpr ⟨by simp, hp⟩

/-- Claim C9: an authenticated request whose recorded usage in the
preceding 60 seconds has reached or exceeded the tier ceiling is refused
with HTTP 429, header Retry-After 60, header X-RateLimit-Remaining 0 and
code RATE_LIMITED, and the handler is not invoked. -/
theorem rate_limited_spec (header : Option String) (key uid : String) (tier : Tier)
    (validation : String → Option (String × Tier)) (used rateFree ratePro : Nat)
    (handler : String → Tier → List MemoryRow → HttpResponse × List MemoryRow)
    (db : List MemoryRow)
    (hTok : extractBearerToken header = some key)
    (hVal : validation key = some (uid, tier))
    (hUsed : tierLimit rateFree ratePro tier ≤ used) :
    withAuth header validation (Except.ok (some used)) rateFree ratePro handler db
      = (⟨429, "RATE_LIMITED", some "60", some "0"⟩, db, false) := by
  have hnl : ¬ used < tierLimit rateFree ratePro tier := Nat.not_lt.mpr hUsed
  unfold withAuth authenticateRequest checkQuota
  rw [hTok]
  simp [hVal, hnl]

theorem rate_limited_witness :
    withAuth (some "Bearer k") (fun _ => some ("u1", Tier.free)) (Except.ok (some 10)) 10 100
      (fun _ _ db => (⟨200, "", none, none⟩, db)) []
      = (⟨429, "RATE_LIMITED", some "60", some "0"⟩, [], false) :=
  rate_limited_spec (some "Bearer k") "k" "u1" Tier.free (fun _ => some ("u1", Tier.free))
    10 10 100 (fun _ _ db => (⟨200, "", none, none⟩, db)) []
    (by decide) rfl (le_refl 10)

/-- Claim C10: when the usage-count query fails, checkQuota reports the
request as allowed (fail open), so a valid-key request proceeds to the
handler rather than being refused. -/
theorem quota_fail_open_spec (header : Option String) (key uid : String) (tier : Tier)
    (validation : String → Option (String × Tier)) (rateFree ratePro : Nat)
    (handler : String → Tier → List MemoryRow → HttpResponse × List MemoryRow)
    (db : List MemoryRow) (e : Unit)
    (hTok : extractBearerToken header = some key)
    (hVal : validation key = some (uid, tier)) :
    checkQuota (Except.error e) (tierLimit rateFree ratePro tier) = ⟨true, 0⟩ ∧
    withAuth header validation (Except.error e) rateFree ratePro handler db
      = ((handler uid tier db).1, (handler uid tier db).2, true) := by
  refine ⟨rfl, ?_⟩
  unfold withAuth authenticateRequest checkQuota
  rw [hTok]
  simp [hVal]

theorem quota_fail_open_witness :
    checkQuota (Except.error ()) (tierLimit 10 100 Tier.pro) = ⟨true, 0⟩ ∧
    withAuth (some "Bearer k") (fun _ => some ("u1", Tier.pro)) (Except.error ()) 10 100
        (fun _ _ db => (⟨200, "", none, none⟩, db)) []
      = (⟨200, "", none, none⟩, [], true) :=
  quota_fail_open_spec (some "Bearer k") "k" "u1" Tier.pro (fun _ => some ("u1", Tier.pro))
    10 100 (fun _ _ db => (⟨200, "", none, none⟩, db)) [] ()
    (by decide) rfl

end BotCore
